import Mathlib

/-!
# Verification of the AIS trajectory preprocessing pipeline

Shallow embedding of `src/code/data_preprocessing/preprocess.py`:
the Koyak outlier-selection algorithm (`trackOutlier`), the speed-based
anomaly classifier (`detectOutlier`), the geodesic temporal interpolator
(`interpolate_`), and the module-level pipeline loops (voyage segmentation,
minimum-length/duration filter, anomaly removal with per-voyage fault
isolation, 5-minute resampling, 144-sample re-splitting, and the
moored/at-anchor quality filter).

Numbers are modelled as exact rationals (`ℚ`); timestamps used as loop
bounds are integers.  The external `pyproj.Geod` geodesic backend is an
abstract parameter; its calls inside the interpolator's `try` block are
`Option`-valued (a `none` models a raised-and-caught exception), while
`detectOutlier`'s vectorised distance call is a total abstract function.
-/

namespace Preprocess

/-- Modelled from the spec: one AIS message.  The script accesses message
fields through column-index constants; line 25 of the source declares
`LAT, LON, SOG, COG, HEAD, NAV, TIMESTAMP, MMSI = range(8)`, while
`interpolate_` additionally uses the constants `HEADING`, `ROT` and
`NAV_STT`, whose declarations are not in `src/` (they come from the
repository's nine-column schema, spec section 6: latitude, longitude,
speed-over-ground, course-over-ground, heading, rate-of-turn,
navigational-status, timestamp, vessel-id).  We therefore model a message
as a record with the nine named fields and read every column access
`track[i, C]` as the field that the constant `C` names:  `LAT ↦ lat`,
`LON ↦ lon`, `SOG ↦ sog`, `COG ↦ cog`, `HEAD`/`HEADING ↦ heading`,
`ROT ↦ rot`, `NAV`/`NAV_STT ↦ nav`, `TIMESTAMP ↦ ts`, `MMSI ↦ mmsi`. -/
structure Msg where
  lat : ℚ
  lon : ℚ
  sog : ℚ
  cog : ℚ
  heading : ℚ
  rot : ℚ
  nav : ℚ
  ts : ℚ
  mmsi : ℚ
  deriving Repr, DecidableEq

instance : Inhabited Msg := ⟨⟨0, 0, 0, 0, 0, 0, 0, 0, 0⟩⟩

/-! ## Koyak outlier selection (`trackOutlier`, source lines 28-80)

The anomaly matrix is an abstract function `A : ℕ → ℕ → ℤ` together with
its dimension `n`; the row-sum vector `b` and the outlier marks `o` are
functions updated in place, exactly as the numpy arrays are.  `np.max` and
`np.argmax` over the length-`n` array `b` are `maxList`/`argmaxIdx` over
the list `[b 0, …, b (n-1)]`; `np.argmax` returns the lowest index
attaining the maximum. -/

/-- The `np.max` of a nonempty array.  On a zero-size array `np.max` does
not return a value at all — it raises `ValueError` — so the 0 returned on
`[]` here is a placeholder that the program can never observe:
`trackOutlierE` below models that fault explicitly, and the loop theorems
only rely on `maxList` for arrays of length `n ≥ 1`. -/
def maxList : List ℤ → ℤ
  | [] => 0
  | [x] => x
  | x :: y :: r => max x (maxList (y :: r))

/-- Index of the first occurrence of the maximum (`np.argmax`). -/
def argmaxIdx : List ℤ → ℕ
  | [] => 0
  | [_] => 0
  | x :: y :: r => if maxList (y :: r) ≤ x then 0 else argmaxIdx (y :: r) + 1

/-- Source line 75: `o[r] = 1`. -/
def koyakMark (o : ℕ → Bool) (r : ℕ) : ℕ → Bool := Function.update o r true

/-- Source lines 76-79: `b[r] = 0`, then `b[j] -= A[r,j]` for every `j`
with `o[j] == 0` (after `o[r]` was set). -/
def koyakDecr (A : ℕ → ℕ → ℤ) (b : ℕ → ℤ) (o' : ℕ → Bool) (r : ℕ) : ℕ → ℤ :=
  fun j => if j = r then 0 else if o' j then b j else b j - A r j

/-- One iteration of the `while(np.max(b) > 0)` body (source lines 73-79):
mark `r = argmax b`, zero `b r`, and subtract `A r j` from `b j` for every
still-unmarked `j`. -/
def koyakStep (A : ℕ → ℕ → ℤ) (n : ℕ) (b : ℕ → ℤ) (o : ℕ → Bool) :
    (ℕ → ℤ) × (ℕ → Bool) :=
  let r := argmaxIdx ((List.range n).map b)
  (koyakDecr A b (koyakMark o r) r, koyakMark o r)

theorem koyakMark_apply (o : ℕ → Bool) (r j : ℕ) :
    koyakMark o r j = if j = r then true else o j := Function.update_apply o r true j

/-- The `while` loop of `trackOutlier`, with explicit fuel.  The guard is
`np.max(b) > 0`.  `koyakLoop_stable` below shows that fuel `n` already
reaches the state where the guard is false, so this is the exact loop. -/
def koyakLoop (A : ℕ → ℕ → ℤ) (n : ℕ) : ℕ → (ℕ → ℤ) → (ℕ → Bool) → (ℕ → Bool)
  | 0, _, o => o
  | fuel + 1, b, o =>
    if maxList ((List.range n).map b) > 0 then
      let s := koyakStep A n b o
      koyakLoop A n fuel s.1 s.2
    else o

/-- Initial row sums `b = np.sum(A, axis=1)` (source line 71). -/
def rowSums (A : ℕ → ℕ → ℤ) (n : ℕ) : ℕ → ℤ := fun i => ∑ j ∈ Finset.range n, A i j

/-- The function `trackOutlier` (source lines 67-80): run the marking loop from the row
sums of `A` and the all-`False` outlier vector, and return the final
outlier indicator vector as a list of booleans of length `n`. -/
def trackOutlier (n : ℕ) (A : ℕ → ℕ → ℤ) : List Bool :=
  (List.range n).map (koyakLoop A n n (rowSums A n) (fun _ => false))

/-- `trackOutlier` with its error path.  The row-sum array `b` has length
`n` at every guard evaluation (`b[r] = 0` and `b[j] -= A[r,j]` are
in-place element updates), so the guard `while(np.max(b) > 0)` raises
`ValueError` (zero-size reduction) exactly when `n = 0`, at its very
first evaluation, before any iteration; for `n ≥ 1` the guard never
faults and the function returns the loop result.  `none` models that
`ValueError` escaping `trackOutlier`. -/
def trackOutlierE (n : ℕ) (A : ℕ → ℕ → ℤ) : Option (List Bool) :=
  if n = 0 then none else some (trackOutlier n A)

/-- Number of still-unmarked indices below `n`. -/
def falseCount (n : ℕ) (o : ℕ → Bool) : ℕ :=
  ((Finset.range n).filter (fun i => o i = false)).card

/-- The 5×5 test matrix from the `trackOutlier` docstring (source lines
54-58): anomalous pairs (0,2), (1,2), (1,3), (0,3), (2,4), (3,4). -/
def exampleA : ℕ → ℕ → ℤ := fun i j =>
  if (i, j) ∈ [(0, 2), (1, 2), (1, 3), (0, 3), (2, 4), (3, 4),
      (2, 0), (2, 1), (3, 1), (3, 0), (4, 2), (4, 3)] then (1 : ℤ) else 0

/-! ## Speed-based anomaly classification (`detectOutlier`, source lines 84-123)

`detectOutlier` receives the projection `voyages[k][:, [TIMESTAMP, LAT,
LON, SOG]]` of a voyage, so its rows are `[timestamp, lat, lon, speed]`
(`track[:,0]`, `track[:,1]`, `track[:,2]`, `track[:,3]`).  The external
`geod.inv` distance computation is an abstract total function
`dist lon1 lat1 lon2 lat2`. -/

/-- One row of the 4-column matrix handed to `detectOutlier`. -/
structure Obs where
  ts : ℚ
  lat : ℚ
  lon : ℚ
  sog : ℚ
  deriving Repr, DecidableEq

instance : Inhabited Obs := ⟨⟨0, 0, 0, 0⟩⟩

/-- Row `j` of the track (numpy row indexing). -/
def obsAt (tr : List Obs) (j : ℕ) : Obs := tr.getD j default

/-- The source's lag-`i` marking condition (lines 113-117) for position
`j` on the `i`-th diagonal: `j` ranges over the slice `[0, N-i)`, the
elapsed time must exceed 2 seconds, and the computed speed
`d / delta_t` must exceed `speed_max * 0.514444` (knots to m/s). -/
def lagCond (dist : ℚ → ℚ → ℚ → ℚ → ℚ) (smax : ℚ) (tr : List Obs) (i j : ℕ) : Bool :=
  decide (j + i < tr.length) &&
    (decide ((obsAt tr (j + i)).ts - (obsAt tr j).ts > 2) &&
      decide (dist (obsAt tr j).lon (obsAt tr j).lat
          (obsAt tr (j + i)).lon (obsAt tr (j + i)).lat /
          ((obsAt tr (j + i)).ts - (obsAt tr j).ts) > smax * 0.514444))

/-- The claim's wording of the same condition, as a proposition. -/
def bandProp (dist : ℚ → ℚ → ℚ → ℚ → ℚ) (smax : ℚ) (tr : List Obs) (j k : ℕ) : Prop :=
  j + k < tr.length ∧ (obsAt tr (j + k)).ts - (obsAt tr j).ts > 2 ∧
    dist (obsAt tr j).lon (obsAt tr j).lat
        (obsAt tr (j + k)).lon (obsAt tr (j + k)).lat /
        ((obsAt tr (j + k)).ts - (obsAt tr j).ts) > smax * 0.514444

/-- The vectorised assignment `A[abnormal_idx, abnormal_idx + i] = 1;
A[abnormal_idx + i, abnormal_idx] = 1` (source lines 118-119): set the two
lag-`i` bands to 1 where the condition holds, leave every other entry. -/
def setLag (A : ℕ → ℕ → ℤ) (c : ℕ → Bool) (i : ℕ) : ℕ → ℕ → ℤ :=
  fun r s => if (s = r + i ∧ c r = true) ∨ (r = s + i ∧ c s = true) then 1 else A r s

/-- The anomaly matrix after the `for i in range(1, 5)` loop (source lines
108-119), starting from `np.zeros((N, N))`. -/
def anomalyA (dist : ℚ → ℚ → ℚ → ℚ → ℚ) (smax : ℚ) (tr : List Obs) : ℕ → ℕ → ℤ :=
  setLag (setLag (setLag (setLag (fun _ _ => 0)
    (lagCond dist smax tr 1) 1)
    (lagCond dist smax tr 2) 2)
    (lagCond dist smax tr 3) 3)
    (lagCond dist smax tr 4) 4

/-- The function `detectOutlier` (source lines 84-123): reported-speed outliers, then
the short-circuit when every message is flagged (returning `None` for the
calculated-speed component), otherwise the banded calculated-speed matrix
fed to `trackOutlier`. -/
def detectOutlier (dist : ℚ → ℚ → ℚ → ℚ → ℚ) (track : List Obs) (smax : ℚ) :
    List Bool × Option (List Bool) :=
  if (track.map fun r => decide (r.sog > smax)).all id then
    (track.map fun r => decide (r.sog > smax), none)
  else
    (track.map fun r => decide (r.sog > smax),
      some (trackOutlier (track.filter fun r => !decide (r.sog > smax)).length
        (anomalyA dist smax (track.filter fun r => !decide (r.sog > smax)))))

/-! ## Geodesic temporal interpolator (`interpolate_`, source lines 127-174)

The whole arithmetic block of `interpolate_` sits inside `try: ... except:
return None`, so the two external geodesic calls are modelled as
`Option`-valued: a `none` result stands for an exception raised inside the
`try` block and caught by the bare `except`. -/

/-- The external `pyproj.Geod(ellps='WGS84')` backend.  `inv lon1 lat1
lon2 lat2` yields `(forward azimuth, back azimuth, distance)`; `fwd lon
lat az dist` yields `(lon2, lat2, back azimuth)`. -/
structure Geod where
  inv : ℚ → ℚ → ℚ → ℚ → Option (ℚ × ℚ × ℚ)
  fwd : ℚ → ℚ → ℚ → ℚ → Option (ℚ × ℚ × ℚ)

/-- Row `i` of an AIS track (numpy row indexing). -/
def msgAt (track : List Msg) (i : ℕ) : Msg := track.getD i default

/-- Index `np.nonzero(t >= track[:,TIMESTAMP])[0][-1]` (source lines 139,
144): the last row index whose timestamp is at most `t`, if any. -/
def beforeIdx? (t : ℚ) : List Msg → Option ℕ
  | [] => none
  | m :: rest =>
    match beforeIdx? t rest with
    | some j => some (j + 1)
    | none => if t ≥ m.ts then some 0 else none

/-- Index `np.nonzero(t < track[:,TIMESTAMP])[0][0]` (source lines 140,
143): the first row index whose timestamp is strictly greater than `t`, if
any. -/
def afterIdx? (t : ℚ) : List Msg → Option ℕ
  | [] => none
  | m :: rest => if t < m.ts then some 0 else (afterIdx? t rest).map (· + 1)

/-- The function `interpolate_` (source lines 127-174): locate the bracketing rows,
refuse gaps above 2 hours, geodesically interpolate the position, linearly
interpolate the scalar fields, and pick the nearer row's navigational
status.  Any failure of the geodesic backend yields `none` (the `except`
branch). -/
def interpolate_ (g : Geod) (t : ℚ) (track : List Msg) : Option Msg :=
  match beforeIdx? t track, afterIdx? t track with
  | some bpos, some apos =>
    if |(msgAt track apos).ts - (msgAt track bpos).ts| > 2 * 3600 then none
    else
      match g.inv (msgAt track bpos).lon (msgAt track bpos).lat
          (msgAt track apos).lon (msgAt track apos).lat with
      | none => none
      | some (az, _, d) =>
        match g.fwd (msgAt track bpos).lon (msgAt track bpos).lat az
            (d * ((t - (msgAt track bpos).ts) /
              ((msgAt track apos).ts - (msgAt track bpos).ts))) with
        | none => none
        | some (lonI, latI, _) =>
          some { lat := latI
                 lon := lonI
                 sog := ((msgAt track apos).sog - (msgAt track bpos).sog) *
                     ((t - (msgAt track bpos).ts) /
                       ((msgAt track apos).ts - (msgAt track bpos).ts)) +
                   (msgAt track bpos).sog
                 cog := ((msgAt track apos).cog - (msgAt track bpos).cog) *
                     ((t - (msgAt track bpos).ts) /
                       ((msgAt track apos).ts - (msgAt track bpos).ts)) +
                   (msgAt track bpos).cog
                 heading := ((msgAt track apos).heading - (msgAt track bpos).heading) *
                     ((t - (msgAt track bpos).ts) /
                       ((msgAt track apos).ts - (msgAt track bpos).ts)) +
                   (msgAt track bpos).heading
                 rot := ((msgAt track apos).rot - (msgAt track bpos).rot) *
                     ((t - (msgAt track bpos).ts) /
                       ((msgAt track apos).ts - (msgAt track bpos).ts)) +
                   (msgAt track bpos).rot
                 nav := if t - (msgAt track bpos).ts >
                     ((msgAt track apos).ts - (msgAt track bpos).ts) / 2 then
                     (msgAt track apos).nav
                   else (msgAt track bpos).nav
                 ts := t
                 mmsi := (msgAt track 0).mmsi }
  | _, _ => none

/-- A flat geodesic backend used by concrete witnesses: `inv` always
succeeds with azimuth and distance 0, `fwd` stays at the start point. -/
def gFlat : Geod where
  inv := fun _ _ _ _ => some (0, 0, 0)
  fwd := fun lon lat az _ => some (lon, lat, az)

/-- A geodesic backend whose inverse computation always fails. -/
def gFail : Geod where
  inv := fun _ _ _ _ => none
  fwd := fun lon lat az _ => some (lon, lat, az)

/-- A strictly increasing three-message track with small gaps. -/
def smallTrack : List Msg :=
  [{ lat := 1, lon := 2, sog := 3, cog := 4, heading := 5, rot := 6, nav := 7,
     ts := 0, mmsi := 99 },
   { lat := 11, lon := 12, sog := 13, cog := 14, heading := 15, rot := 16, nav := 8,
     ts := 100, mmsi := 99 },
   { lat := 21, lon := 22, sog := 23, cog := 24, heading := 25, rot := 26, nav := 0,
     ts := 200, mmsi := 99 }]

/-- Counterexample track: the interior pair at indices (1, 2) has gap 100
seconds, but the message after index 2 is 7201 seconds later. -/
def cexTrack : List Msg :=
  [{ lat := 1, lon := 2, sog := 3, cog := 4, heading := 5, rot := 6, nav := 7,
     ts := 0, mmsi := 99 },
   { lat := 11, lon := 12, sog := 13, cog := 14, heading := 15, rot := 16, nav := 8,
     ts := 100, mmsi := 99 },
   { lat := 21, lon := 22, sog := 23, cog := 24, heading := 25, rot := 26, nav := 0,
     ts := 200, mmsi := 99 },
   { lat := 31, lon := 32, sog := 33, cog := 34, heading := 35, rot := 36, nav := 1,
     ts := 7401, mmsi := 99 }]

/-- A trivial geodesic-distance stand-in used by concrete witnesses. -/
def dist0 : ℚ → ℚ → ℚ → ℚ → ℚ := fun _ _ _ _ => 0

/-- A two-message track whose reported speeds both exceed 30 knots. -/
def fastTrack : List Obs := [⟨0, 0, 0, 31⟩, ⟨10, 1, 1, 35⟩]

/-- A two-message track with one plausible and one infeasible speed. -/
def mixedTrack : List Obs := [⟨0, 0, 0, 10⟩, ⟨10, 3, 4, 50⟩]

/-! ## Module-level pipeline loops (source lines 176-270)

The working collections (`traj_data`, `voyages`, `Vs`, `Data`) are Python
dicts iterated in insertion order and mutated by `pop`; they are modelled
as lists of tracks, with `pop` becoming list filtering, which preserves
both the processed order and the surviving entries. -/

/-- Numpy `np.split(v, idxs)` for an ascending index list: slice `v` at each
index.  Each recursive step removes the first cut point and shifts the
remaining cut points into the suffix's coordinates. -/
def npSplitAux {α : Type} : List ℕ → List α → List (List α)
  | [], v => [v]
  | i :: rest, v => v.take i :: npSplitAux (rest.map (· - i)) (v.drop i)
termination_by l _ => l.length
decreasing_by simpa using Nat.lt_succ_self rest.length

/-- Gap positions against `INTERVAL_MAX = 2*3600` (source line 179), i.e. indices
`i` with `v[i+1].ts - v[i].ts > 2h` (`np.where(intervals > INTERVAL_MAX)`,
source lines 185-186). -/
def gapIdxs (v : List Msg) : List ℕ :=
  (List.range (v.length - 1)).filter fun i =>
    decide ((msgAt v (i + 1)).ts - (msgAt v i).ts > 2 * 3600)

/-- Voyage segmentation of one vessel's stream (source lines 181-194):
skip empty streams, keep gap-free streams whole, otherwise
`np.split(v, idx + 1)`. -/
def segmentTrack (v : List Msg) : List (List Msg) :=
  if 0 < v.length then
    if gapIdxs v = [] then [v] else npSplitAux ((gapIdxs v).map (· + 1)) v
  else []

/-- The minimum-length / minimum-duration filter (source lines 198-201):
drop candidates with fewer than 75 messages or lasting under 6 hours. -/
def durationFilter (vs : List (List Msg)) : List (List Msg) :=
  vs.filter fun w =>
    !(decide (w.length < 75) ||
      decide ((msgAt w (w.length - 1)).ts - (msgAt w 0).ts < 6 * 3600))

/-- Row masking `v[np.invert(mask)]`: keep the rows whose mask entry is `False`. -/
def maskDrop {α : Type} (v : List α) (mask : List Bool) : List α :=
  (v.zip mask).filterMap fun p => if p.2 then none else some p.1

/-- The anomaly-removal loop (source lines 205-217).  `f` stands for the
call `detectOutlier(voyages[k][:, [TIMESTAMP, LAT, LON, SOG]], 30)`
together with everything that can fault inside the `try` block; a fault is
an `Except.error`.  A `None` calculated-speed component when the report
vector is not all-true would raise `AttributeError` at
`o_calcul.all()` — inside the `try`, hence also the error path (the `or`
short-circuits when `o_report.all()` is true, so that path returns before
touching `o_calcul`).  On the error path the voyage is popped and
`error_count` incremented; on the keep path the voyage is filtered by both
masks. -/
def anomalyStage (f : List Msg → Except Unit (List Bool × Option (List Bool))) :
    List (List Msg) → List (List Msg) × ℕ
  | [] => ([], 0)
  | v :: rest =>
    match f v with
    | .error _ => ((anomalyStage f rest).1, (anomalyStage f rest).2 + 1)
    | .ok (oRep, oCal) =>
      if oRep.all id then anomalyStage f rest
      else
        match oCal with
        | none => ((anomalyStage f rest).1, (anomalyStage f rest).2 + 1)
        | some oc =>
          if oc.all id then anomalyStage f rest
          else (maskDrop (maskDrop v oRep) oc :: (anomalyStage f rest).1,
            (anomalyStage f rest).2)

/-- What happens to a single voyage in the anomaly-removal loop, stated
from the spec's error taxonomy: an unexpected fault (or the
`o_calcul = None` access on the not-all-reported path) discards the
voyage; an all-anomalous verdict discards it; otherwise both outlier
masks are applied. -/
def voyageOutcome (f : List Msg → Except Unit (List Bool × Option (List Bool)))
    (v : List Msg) : Option (List Msg) :=
  match f v with
  | .error _ => none
  | .ok (oRep, oCal) =>
    if oRep.all id then none
    else
      match oCal with
      | none => none
      | some oc => if oc.all id then none else some (maskDrop (maskDrop v oRep) oc)

/-- Whether processing a voyage takes the `except` path (increments
`error_count`). -/
def voyageFaults (f : List Msg → Except Unit (List Bool × Option (List Bool)))
    (v : List Msg) : Bool :=
  match f v with
  | .error _ => true
  | .ok (oRep, none) => !oRep.all id
  | .ok (_, some _) => false

/-- Python `int()` on a rational (truncation; exact on integral values). -/
def pyInt (q : ℚ) : ℤ := q.num / (q.den : ℤ)

/-- Number of elements of Python `range(a, b, step)` for positive step. -/
def pyRangeLen (a b step : ℤ) : ℕ := (b - a + (step - 1)).toNat / step.toNat

/-- Python `range(a, b, step)` for positive step. -/
def pyRange (a b step : ℤ) : List ℤ :=
  (List.range (pyRangeLen a b step)).map fun j : ℕ => a + step * (j : ℤ)

/-- The inner resampling walk (source lines 227-233): interpolate at each
target; the first unavailable result aborts the whole voyage
(`sampling_track = None; break`). -/
def sampleLoop (g : Geod) (v : List Msg) : List ℤ → Option (List Msg)
  | [] => some []
  | t :: rest =>
    match interpolate_ g (t : ℚ) v with
    | none => none
    | some m => (sampleLoop g v rest).map (m :: ·)

/-- Resampling one voyage (source lines 224-236):
`range(int(v[0,TIMESTAMP]), int(v[-1,TIMESTAMP]), 300)`. -/
def resampleVoyage (g : Geod) (v : List Msg) : Option (List Msg) :=
  sampleLoop g v
    (pyRange (pyInt (msgAt v 0).ts) (pyInt (msgAt v (v.length - 1)).ts) 300)

/-- Numpy `np.arange(0, n, step)` (for positive step). -/
def arange (n step : ℕ) : List ℕ :=
  (List.range ((n + step - 1) / step)).map (· * step)

/-- The re-splitting cut of one resampled voyage (source lines 243-247):
`np.split(v, np.arange(0, len(v), one_hour * DURATION_MAX)[1:])` with
`one_hour * DURATION_MAX = 12 * 12 = 144`. -/
def blockSplit (v : List Msg) : List (List Msg) :=
  npSplitAux ((arange v.length 144).tail) v

/-- The re-splitting stage for one voyage (source lines 243-252): keep the
slices of length at least 144. -/
def resplitVoyage (v : List Msg) : List (List Msg) :=
  (blockSplit v).filter fun s => decide (144 ≤ s.length)

/-- The moored/at-anchor predicate (source lines 256-259): the fraction of
rows with status 7 exceeds 0.7, or the fraction of rows with status 8
exceeds 0.7 — two separate fractions, not the combined one. -/
def mooredDiscard (b : List Msg) : Bool :=
  decide (((b.countP fun m => decide (m.nav = 7)) : ℚ) / (b.length : ℚ) > 0.7) ||
    decide (((b.countP fun m => decide (m.nav = 8)) : ℚ) / (b.length : ℚ) > 0.7)

/-- The claim's reading of the same sentence: the fraction of rows whose
status is 7 or 8, combined, exceeds 0.7. -/
def mooredDiscardClaim (b : List Msg) : Bool :=
  decide (((b.countP fun m => decide (m.nav = 7) || decide (m.nav = 8)) : ℚ) /
    (b.length : ℚ) > 0.7)

/-- Maximum reported speed `np.max(Data[k][:,SOG])` (source line 262). -/
def maxSog : List Msg → ℚ
  | [] => 0
  | m :: rest => rest.foldl (fun acc x => max acc x.sog) m.sog

/-- The quality-filter loop over blocks (source lines 255-264): pop a
block if the moored/anchor predicate fires (`continue`), otherwise pop it
if its maximum speed is below 1 knot. -/
def qualityStage (blocks : List (List Msg)) : List (List Msg) :=
  blocks.filter fun b => !mooredDiscard b && !decide (maxSog b < 1)

/-- A message with navigational status 7 (moored) and speed 5. -/
def msgNav7 : Msg :=
  { lat := 0, lon := 0, sog := 5, cog := 0, heading := 0, rot := 0, nav := 7,
    ts := 0, mmsi := 1 }

/-- A message with navigational status 8 (at anchor) and speed 5. -/
def msgNav8 : Msg :=
  { lat := 0, lon := 0, sog := 5, cog := 0, heading := 0, rot := 0, nav := 8,
    ts := 0, mmsi := 1 }

/-- A 144-sample block, half moored and half at anchor: the combined
7-or-8 fraction is 1, each separate fraction is 1/2. -/
def cexBlock : List Msg := List.replicate 72 msgNav7 ++ List.replicate 72 msgNav8

/-- A three-message stream with a single above-threshold gap after
index 1. -/
def gapTrack : List Msg :=
  [{ lat := 0, lon := 0, sog := 0, cog := 0, heading := 0, rot := 0, nav := 0,
     ts := 0, mmsi := 4 },
   { lat := 0, lon := 0, sog := 0, cog := 0, heading := 0, rot := 0, nav := 0,
     ts := 100, mmsi := 4 },
   { lat := 0, lon := 0, sog := 0, cog := 0, heading := 0, rot := 0, nav := 0,
     ts := 7301, mmsi := 4 }]

/-! ### Lemmas about `maxList` and `argmaxIdx` -/

theorem maxList_nonpos : ∀ {l : List ℤ}, (∀ x ∈ l, x ≤ 0) → maxList l ≤ 0
  | [], _ => le_refl 0
  | [x], h => h x (by simp)
  | x :: y :: r, h => by
    simp only [maxList]
    exact max_le (h x (by simp))
      (maxList_nonpos fun z hz => h z (List.mem_cons_of_mem x hz))

theorem argmaxIdx_lt_length : ∀ (l : List ℤ), l ≠ [] → argmaxIdx l < l.length
  | [], h => absurd rfl h
  | [_], _ => by simp [argmaxIdx]
  | x :: y :: r, _ => by
    simp only [argmaxIdx]
    split
    · simp
    · have ih := argmaxIdx_lt_length (y :: r) (by simp)
      simpa [Nat.succ_lt_succ_iff] using ih

theorem getD_argmaxIdx : ∀ (l : List ℤ), l ≠ [] → l.getD (argmaxIdx l) 0 = maxList l
  | [], h => absurd rfl h
  | [_], _ => by simp [argmaxIdx, maxList]
  | x :: y :: r, _ => by
    simp only [argmaxIdx, maxList]
    split
    · next h => simp [max_eq_left h]
    · next h =>
      have ih := getD_argmaxIdx (y :: r) (by simp)
      rw [List.getD_cons_succ, ih]
      exact (max_eq_right (le_of_not_le h)).symm

theorem getD_map_range (b : ℕ → ℤ) {n i : ℕ} (h : i < n) :
    ((List.range n).map b).getD i 0 = b i := by
  have h' : i < ((List.range n).map b).length := by simpa using h
  rw [List.getD_eq_getElem _ _ h']
  simp

/-! ### Termination and determinism of the Koyak loop -/

theorem koyakLoop_succ (A : ℕ → ℕ → ℤ) (n fuel : ℕ) (b : ℕ → ℤ) (o : ℕ → Bool) :
    koyakLoop A n (fuel + 1) b o =
      if maxList ((List.range n).map b) > 0 then
        koyakLoop A n fuel (koyakStep A n b o).1 (koyakStep A n b o).2
      else o := rfl

/-- If the loop guard holds, the argmax index `r` is below `n`, attains the
maximum of `b` over `range n`, and is still unmarked (given the invariant
that marked indices have zero row sum). -/
theorem guard_argmax (n : ℕ) (b : ℕ → ℤ) (o : ℕ → Bool)
    (hinv : ∀ i, i < n → o i = true → b i = 0)
    (hguard : maxList ((List.range n).map b) > 0) :
    argmaxIdx ((List.range n).map b) < n ∧
      b (argmaxIdx ((List.range n).map b)) = maxList ((List.range n).map b) ∧
      o (argmaxIdx ((List.range n).map b)) = false := by
  set l := (List.range n).map b with hl
  have hne : l ≠ [] := by
    intro hnil
    rw [hnil] at hguard
    simp [maxList] at hguard
  have hlen : l.length = n := by simp [hl]
  have hr : argmaxIdx l < n := hlen ▸ argmaxIdx_lt_length l hne
  have hrb : b (argmaxIdx l) = maxList l := by
    have := getD_argmaxIdx l hne
    rwa [hl, getD_map_range b hr] at this
  refine ⟨hr, hrb, ?_⟩
  by_contra hmark
  have : b (argmaxIdx l) = 0 :=
    hinv _ hr (by revert hmark; cases o (argmaxIdx l) <;> simp)
  rw [this] at hrb
  omega

/-- Core invariant lemma: with at most `fuel` unmarked indices left, the
fuel-indexed loop has already stabilised — extra fuel changes nothing.
This is the termination argument of the claim: each iteration marks a
fresh index, so `n` iterations suffice. -/
theorem koyakLoop_stable (A : ℕ → ℕ → ℤ) (n : ℕ) :
    ∀ (fuel : ℕ) (b : ℕ → ℤ) (o : ℕ → Bool),
      (∀ i, i < n → o i = true → b i = 0) →
      falseCount n o ≤ fuel →
      ∀ k, koyakLoop A n (fuel + k) b o = koyakLoop A n fuel b o := by
  intro fuel
  induction fuel with
  | zero =>
    intro b o hinv hcount k
    have hall : ∀ i, i < n → o i = true := by
      intro i hi
      by_contra hoi
      have hmem : i ∈ (Finset.range n).filter (fun i => o i = false) := by
        simp only [Finset.mem_filter, Finset.mem_range]
        exact ⟨hi, by revert hoi; cases o i <;> simp⟩
      have : 0 < falseCount n o := Finset.card_pos.mpr ⟨i, hmem⟩
      omega
    have hguard : ¬ maxList ((List.range n).map b) > 0 := by
      have : maxList ((List.range n).map b) ≤ 0 := by
        apply maxList_nonpos
        intro x hx
        rcases List.mem_map.mp hx with ⟨i, hi, rfl⟩
        rw [hinv i (List.mem_range.mp hi) (hall i (List.mem_range.mp hi))]
      omega
    cases k with
    | zero => rfl
    | succ k' => rw [Nat.zero_add, koyakLoop_succ, if_neg hguard]; rfl
  | succ fuel ih =>
    intro b o hinv hcount k
    by_cases hguard : maxList ((List.range n).map b) > 0
    · have hsucc : fuel + 1 + k = (fuel + k) + 1 := by omega
      rw [hsucc, koyakLoop_succ, if_pos hguard, koyakLoop_succ, if_pos hguard]
      obtain ⟨hr, hrb, hro⟩ := guard_argmax n b o hinv hguard
      set r := argmaxIdx ((List.range n).map b) with hrdef
      have hinv' : ∀ i, i < n →
          koyakMark o r i = true → koyakDecr A b (koyakMark o r) r i = 0 := by
        intro i hi hoi
        by_cases hir : i = r
        · simp [koyakDecr, hir]
        · have hoi' : o i = true := by
            rwa [koyakMark_apply, if_neg hir] at hoi
          simp only [koyakDecr]
          rw [if_neg hir, koyakMark_apply, if_neg hir, if_pos hoi']
          exact hinv i hi hoi'
      have hcount' : falseCount n (koyakMark o r) ≤ fuel := by
        have hset : (Finset.range n).filter (fun i => koyakMark o r i = false) =
            ((Finset.range n).filter (fun i => o i = false)).erase r := by
          ext x
          simp only [Finset.mem_filter, Finset.mem_range, Finset.mem_erase,
            koyakMark_apply]
          constructor
          · rintro ⟨hx, hfx⟩
            by_cases hxr : x = r
            · rw [if_pos hxr] at hfx
              cases hfx
            · rw [if_neg hxr] at hfx
              exact ⟨hxr, hx, hfx⟩
          · rintro ⟨hxr, hx, hfx⟩
            refine ⟨hx, ?_⟩
            rwa [if_neg hxr]
        have hmem : r ∈ (Finset.range n).filter (fun i => o i = false) := by
          simp only [Finset.mem_filter, Finset.mem_range]
          exact ⟨hr, hro⟩
        unfold falseCount
        rw [hset, Finset.card_erase_of_mem hmem]
        unfold falseCount at hcount
        omega
      exact ih _ _ hinv' hcount' k
    · rw [koyakLoop_succ, if_neg hguard]
      cases k with
      | zero => rw [koyakLoop_succ, if_neg hguard]
      | succ k' =>
        have : fuel + 1 + (k' + 1) = (fuel + k' + 1) + 1 := by omega
        rw [this, koyakLoop_succ, if_neg hguard]

/-- The loop reads `A`, `b`, `o` only at indices below `n`:
pointwise-equal inputs give pointwise-equal results. -/
theorem koyakLoop_congr (n : ℕ) (A A' : ℕ → ℕ → ℤ)
    (hA : ∀ i, i < n → ∀ j, j < n → A i j = A' i j) :
    ∀ (fuel : ℕ) (b b' : ℕ → ℤ) (o o' : ℕ → Bool),
      (∀ i, i < n → b i = b' i) → (∀ i, i < n → o i = o' i) →
      ∀ i, i < n → koyakLoop A n fuel b o i = koyakLoop A' n fuel b' o' i := by
  intro fuel
  induction fuel with
  | zero => intro b b' o o' _ ho i hi; exact ho i hi
  | succ fuel ih =>
    intro b b' o o' hb ho i hi
    have hmap : (List.range n).map b = (List.range n).map b' :=
      List.map_congr_left fun j hj => hb j (List.mem_range.mp hj)
    rw [koyakLoop_succ, koyakLoop_succ, ← hmap]
    by_cases hguard : maxList ((List.range n).map b) > 0
    · rw [if_pos hguard, if_pos hguard]
      set r := argmaxIdx ((List.range n).map b) with hrdef
      have hrn : r < n := by
        have hne : (List.range n).map b ≠ [] := by
          intro hnil
          rw [hnil] at hguard
          simp [maxList] at hguard
        have := argmaxIdx_lt_length _ hne
        simpa [hrdef] using this
      have hr2 : argmaxIdx ((List.range n).map b') = r := by
        rw [← hmap]
      apply ih
      · intro j hj
        show koyakDecr A b (koyakMark o r) r j =
          koyakDecr A' b' (koyakMark o' (argmaxIdx ((List.range n).map b')))
            (argmaxIdx ((List.range n).map b')) j
        rw [hr2]
        simp only [koyakDecr, koyakMark_apply]
        by_cases hjr : j = r
        · simp [hjr]
        · simp only [if_neg hjr]
          rw [hb j hj, ho j hj, hA r hrn j hj]
      · intro j hj
        show koyakMark o r j = koyakMark o' (argmaxIdx ((List.range n).map b')) j
        rw [hr2, koyakMark_apply, koyakMark_apply]
        by_cases hjr : j = r
        · simp [hjr]
        · rw [if_neg hjr, if_neg hjr]
          exact ho j hj
      · exact hi
    · rw [if_neg hguard, if_neg hguard]
      exact ho i hi

/-- C6 (amended): for every symmetric binary n×n matrix `A` with `n ≥ 1`,
the Outlier Selection algorithm (`trackOutlier`) terminates without
faulting and returns a boolean vector of length `n`, and it is
deterministic: two runs on the same `A` yield the same vector (argmax ties
broken by lowest index).  Termination is rendered as stabilisation of the
fuel-indexed loop: fuel `n` already reaches the state where the guard
`np.max(b) > 0` is false, so any larger fuel gives the same vector.
Determinism is rendered extensionally: the result depends only on the
entries `A i j` with `i, j < n` (in a pure functional embedding, two runs
on syntactically identical input are definitionally equal, so the
meaningful statement is invariance under representation of the same
matrix); ties in the argmax are broken toward the lowest index by
`argmaxIdx`.  At `n = 0` the original claim fails: the guard's `np.max`
raises `ValueError` on the empty row-sum array instead of returning the
empty vector (see the counterexample). -/
theorem trackOutlier_total (n : ℕ) (A : ℕ → ℕ → ℤ) (hn : 0 < n)
    (hsym : ∀ i, i < n → ∀ j, j < n → A i j = A j i)
    (hbin : ∀ i, i < n → ∀ j, j < n → A i j = 0 ∨ A i j = 1) :
    trackOutlierE n A = some (trackOutlier n A) ∧
    (trackOutlier n A).length = n ∧
    (∀ k, (List.range n).map (koyakLoop A n (n + k) (rowSums A n) (fun _ => false)) =
      trackOutlier n A) ∧
    (∀ A' : ℕ → ℕ → ℤ, (∀ i, i < n → ∀ j, j < n → A i j = A' i j) →
      trackOutlierE n A' = trackOutlierE n A) := by
  have hinv0 : ∀ i, i < n → (fun _ : ℕ => false) i = true → rowSums A n i = 0 := by
    intro i _ h
    simp at h
  have hcount0 : falseCount n (fun _ => false) ≤ n := by
    unfold falseCount
    have : (Finset.range n).filter (fun _ => (false = false)) = Finset.range n :=
      Finset.filter_true_of_mem fun _ _ => rfl
    simp
  refine ⟨by rw [trackOutlierE, if_neg (by omega)], by simp [trackOutlier], ?_, ?_⟩
  · intro k
    rw [koyakLoop_stable A n n (rowSums A n) (fun _ => false) hinv0 hcount0 k]
    rfl
  · intro A' hA'
    unfold trackOutlierE
    rw [if_neg (by omega), if_neg (by omega)]
    have : trackOutlier n A' = trackOutlier n A := by
      unfold trackOutlier
      apply List.map_congr_left
      intro i hi
      apply koyakLoop_congr n A' A
      · intro a ha b hb
        exact (hA' a ha b hb).symm
      · intro a ha
        unfold rowSums
        exact Finset.sum_congr rfl fun j hj =>
          (hA' a ha j (Finset.mem_range.mp hj)).symm
      · intro a _
        rfl
      · exact List.mem_range.mp hi
    rw [this]

/-- C6 witness: the theorem applied to the docstring's concrete 5×5
symmetric binary matrix. -/
theorem trackOutlier_total_witness :
    trackOutlierE 5 exampleA = some (trackOutlier 5 exampleA) ∧
    (trackOutlier 5 exampleA).length = 5 ∧
    (∀ k, (List.range 5).map
        (koyakLoop exampleA 5 (5 + k) (rowSums exampleA 5) (fun _ => false)) =
      trackOutlier 5 exampleA) ∧
    (∀ A' : ℕ → ℕ → ℤ, (∀ i, i < 5 → ∀ j, j < 5 → exampleA i j = A' i j) →
      trackOutlierE 5 A' = trackOutlierE 5 exampleA) :=
  trackOutlier_total 5 exampleA (by decide) (by decide) (by decide)

/-- C6 counterexample: the 0×0 matrix is symmetric and binary (vacuously),
yet the program returns no vector at all: `b = np.sum(A, axis=1)` is
zero-size, and the first evaluation of the guard `while(np.max(b) > 0)`
raises `ValueError` — modelled as `none` — instead of producing the
length-0 outlier vector that the original universally-quantified claim
promises. -/
theorem trackOutlierE_empty_cex :
    trackOutlierE 0 (fun _ _ => (0 : ℤ)) = none := rfl

/-! ### `detectOutlier`: the banded matrix and the short-circuit -/

theorem lagCond_iff_bandProp (dist : ℚ → ℚ → ℚ → ℚ → ℚ) (smax : ℚ)
    (tr : List Obs) (i j : ℕ) :
    lagCond dist smax tr i j = true ↔ bandProp dist smax tr j i := by
  unfold lagCond bandProp
  simp [Bool.and_eq_true, decide_eq_true_eq, and_assoc]

theorem setLag_apply (A : ℕ → ℕ → ℤ) (c : ℕ → Bool) (i r s : ℕ) :
    setLag A c i r s =
      if (s = r + i ∧ c r = true) ∨ (r = s + i ∧ c s = true) then 1
      else A r s := rfl

/-- C7: after removing reported-speed outliers, the pairwise anomaly
matrix `A` has `A[i][i+k] = A[i+k][i] = 1` for `k ∈ {1, 2, 3, 4}` exactly
when the elapsed time between messages `i` and `i+k` exceeds 2 seconds and
the geodesic distance divided by that elapsed time exceeds `max_speed`
converted to meters per second (× 0.514444); all other entries are 0, and
the calculated-speed outlier vector is `trackOutlier` applied to this
banded matrix. -/
theorem detectOutlier_banded (dist : ℚ → ℚ → ℚ → ℚ → ℚ) (track : List Obs)
    (smax : ℚ) (tr : List Obs)
    (htr : tr = track.filter fun r => !decide (r.sog > smax))
    (h : ∃ m ∈ track, ¬ m.sog > smax) :
    (detectOutlier dist track smax).2 =
      some (trackOutlier tr.length (anomalyA dist smax tr)) ∧
    ∀ r s : ℕ,
      (anomalyA dist smax tr r s = 1 ↔
        ∃ k, 1 ≤ k ∧ k ≤ 4 ∧
          ((s = r + k ∧ bandProp dist smax tr r k) ∨
            (r = s + k ∧ bandProp dist smax tr s k))) ∧
      (anomalyA dist smax tr r s = 0 ∨ anomalyA dist smax tr r s = 1) := by
  constructor
  · obtain ⟨m, hm, hns⟩ := h
    have hall : (track.map fun r => decide (r.sog > smax)).all id = false := by
      rw [← Bool.not_eq_true]
      intro hcon
      rw [List.all_eq_true] at hcon
      have := hcon (decide (m.sog > smax)) (List.mem_map_of_mem _ hm)
      simp only [id] at this
      exact hns (of_decide_eq_true this)
    unfold detectOutlier
    rw [hall]
    simp [htr]
  · intro r s
    constructor
    · constructor
      · intro h1
        unfold anomalyA at h1
        rw [setLag_apply] at h1
        split_ifs at h1 with hc4
        · rcases hc4 with ⟨hs, hc⟩ | ⟨hr, hc⟩
          · exact ⟨4, by omega, by omega,
              Or.inl ⟨hs, (lagCond_iff_bandProp dist smax tr 4 r).mp hc⟩⟩
          · exact ⟨4, by omega, by omega,
              Or.inr ⟨hr, (lagCond_iff_bandProp dist smax tr 4 s).mp hc⟩⟩
        rw [setLag_apply] at h1
        split_ifs at h1 with hc3
        · rcases hc3 with ⟨hs, hc⟩ | ⟨hr, hc⟩
          · exact ⟨3, by omega, by omega,
              Or.inl ⟨hs, (lagCond_iff_bandProp dist smax tr 3 r).mp hc⟩⟩
          · exact ⟨3, by omega, by omega,
              Or.inr ⟨hr, (lagCond_iff_bandProp dist smax tr 3 s).mp hc⟩⟩
        rw [setLag_apply] at h1
        split_ifs at h1 with hc2
        · rcases hc2 with ⟨hs, hc⟩ | ⟨hr, hc⟩
          · exact ⟨2, by omega, by omega,
              Or.inl ⟨hs, (lagCond_iff_bandProp dist smax tr 2 r).mp hc⟩⟩
          · exact ⟨2, by omega, by omega,
              Or.inr ⟨hr, (lagCond_iff_bandProp dist smax tr 2 s).mp hc⟩⟩
        rw [setLag_apply] at h1
        split_ifs at h1 with hc1
        · rcases hc1 with ⟨hs, hc⟩ | ⟨hr, hc⟩
          · exact ⟨1, by omega, by omega,
              Or.inl ⟨hs, (lagCond_iff_bandProp dist smax tr 1 r).mp hc⟩⟩
          · exact ⟨1, by omega, by omega,
              Or.inr ⟨hr, (lagCond_iff_bandProp dist smax tr 1 s).mp hc⟩⟩
        · exact absurd h1 (by omega)
      · rintro ⟨k, hk1, hk4, hk⟩
        have hck : ((s = r + k ∧ lagCond dist smax tr k r = true) ∨
            (r = s + k ∧ lagCond dist smax tr k s = true)) := by
          rcases hk with ⟨hs, hb⟩ | ⟨hr, hb⟩
          · exact Or.inl ⟨hs, (lagCond_iff_bandProp dist smax tr k r).mpr hb⟩
          · exact Or.inr ⟨hr, (lagCond_iff_bandProp dist smax tr k s).mpr hb⟩
        unfold anomalyA
        interval_cases k
        · rw [setLag_apply]
          split_ifs with hc4
          · rfl
          rw [setLag_apply]
          split_ifs with hc3
          · rfl
          rw [setLag_apply]
          split_ifs with hc2
          · rfl
          rw [setLag_apply]
          rw [if_pos hck]
        · rw [setLag_apply]
          split_ifs with hc4
          · rfl
          rw [setLag_apply]
          split_ifs with hc3
          · rfl
          rw [setLag_apply]
          rw [if_pos hck]
        · rw [setLag_apply]
          split_ifs with hc4
          · rfl
          rw [setLag_apply]
          rw [if_pos hck]
        · rw [setLag_apply]
          rw [if_pos hck]
    · unfold anomalyA
      rw [setLag_apply]
      split_ifs with hc4
      · exact Or.inr rfl
      rw [setLag_apply]
      split_ifs with hc3
      · exact Or.inr rfl
      rw [setLag_apply]
      split_ifs with hc2
      · exact Or.inr rfl
      rw [setLag_apply]
      split_ifs with hc1
      · exact Or.inr rfl
      · exact Or.inl rfl

/-- C7 witness: the theorem applied to a concrete two-message track with
one plausible message, with the trivial distance function. -/
theorem detectOutlier_banded_witness :
    (detectOutlier dist0 mixedTrack 30).2 =
      some (trackOutlier (List.length [(⟨0, 0, 0, 10⟩ : Obs)])
        (anomalyA dist0 30 [⟨0, 0, 0, 10⟩])) ∧
    ∀ r s : ℕ,
      (anomalyA dist0 30 [⟨0, 0, 0, 10⟩] r s = 1 ↔
        ∃ k, 1 ≤ k ∧ k ≤ 4 ∧
          ((s = r + k ∧ bandProp dist0 30 [⟨0, 0, 0, 10⟩] r k) ∨
            (r = s + k ∧ bandProp dist0 30 [⟨0, 0, 0, 10⟩] s k))) ∧
      (anomalyA dist0 30 [⟨0, 0, 0, 10⟩] r s = 0 ∨
        anomalyA dist0 30 [⟨0, 0, 0, 10⟩] r s = 1) :=
  detectOutlier_banded dist0 mixedTrack 30 [⟨0, 0, 0, 10⟩] (by decide)
    ⟨⟨0, 0, 0, 10⟩, by decide, by decide⟩

/-- C10: for every input track in which every message's reported speed
strictly exceeds `max_speed`, `detectOutlier` short-circuits and returns
the pair (all-true report vector, `None`): the calculated-speed result is
the sentinel `None` rather than a boolean vector (source lines 99-102) —
in this embedding the `Option` type forces any caller to handle the
`none` sentinel on the all-anomalous path. -/
theorem detectOutlier_shortCircuit (dist : ℚ → ℚ → ℚ → ℚ → ℚ)
    (track : List Obs) (smax : ℚ) (h : ∀ m ∈ track, m.sog > smax) :
    detectOutlier dist track smax = (track.map fun _ => true, none) := by
  have hmap : (track.map fun r => decide (r.sog > smax)) =
      track.map fun _ => true :=
    List.map_congr_left fun m hm => by simp [h m hm]
  have hall : ((track.map fun _ : Obs => true).all id) = true := by
    simp [List.all_eq_true]
  unfold detectOutlier
  rw [hmap, hall]
  simp

/-- C10 witness: the short-circuit on a concrete all-infeasible track. -/
theorem detectOutlier_shortCircuit_witness :
    detectOutlier dist0 fastTrack 30 = ([true, true], none) := by
  rw [detectOutlier_shortCircuit dist0 fastTrack 30 (by decide)]
  rfl

/-! ### Interpolator: bracketing-index lemmas -/

theorem msgAt_cons_zero (m : Msg) (rest : List Msg) : msgAt (m :: rest) 0 = m := rfl

theorem msgAt_cons_succ (m : Msg) (rest : List Msg) (k : ℕ) :
    msgAt (m :: rest) (k + 1) = msgAt rest k := rfl

theorem msgAt_mem (track : List Msg) (j : ℕ) (h : j < track.length) :
    msgAt track j ∈ track := by
  unfold msgAt
  rw [List.getD_eq_getElem _ _ h]
  exact List.getElem_mem h

theorem msgAt_ts_lt (track : List Msg)
    (hp : track.Pairwise fun a b => a.ts < b.ts) {i j : ℕ} (hij : i < j)
    (hj : j < track.length) :
    (msgAt track i).ts < (msgAt track j).ts := by
  rw [List.pairwise_iff_get] at hp
  have hi : i < track.length := lt_trans hij hj
  unfold msgAt
  rw [List.getD_eq_getElem _ _ hi, List.getD_eq_getElem _ _ hj]
  exact hp ⟨i, hi⟩ ⟨j, hj⟩ hij

theorem beforeIdx?_eq_none (t : ℚ) :
    ∀ (l : List Msg), (∀ x ∈ l, ¬ t ≥ x.ts) → beforeIdx? t l = none
  | [], _ => rfl
  | m :: rest, h => by
    have hr := beforeIdx?_eq_none t rest fun x hx => h x (List.mem_cons_of_mem m hx)
    simp only [beforeIdx?, hr]
    rw [if_neg (h m (List.mem_cons_self m rest))]

theorem afterIdx?_eq_none (t : ℚ) :
    ∀ (l : List Msg), (∀ x ∈ l, ¬ t < x.ts) → afterIdx? t l = none
  | [], _ => rfl
  | m :: rest, h => by
    have hr := afterIdx?_eq_none t rest fun x hx => h x (List.mem_cons_of_mem m hx)
    simp only [afterIdx?, hr]
    rw [if_neg (h m (List.mem_cons_self m rest))]
    rfl

theorem beforeIdx?_at_node :
    ∀ (track : List Msg) (j : ℕ), track.Pairwise (fun a b => a.ts < b.ts) →
      j < track.length → beforeIdx? (msgAt track j).ts track = some j
  | [], j, _, hj => absurd hj (by simp)
  | m :: rest, 0, hp, _ => by
    have hnone : beforeIdx? m.ts rest = none := by
      apply beforeIdx?_eq_none
      intro x hx
      exact not_le.mpr ((List.pairwise_cons.mp hp).1 x hx)
    simp only [msgAt_cons_zero, beforeIdx?, hnone]
    rw [if_pos (le_refl m.ts)]
  | m :: rest, j + 1, hp, hj => by
    have ih := beforeIdx?_at_node rest j (List.pairwise_cons.mp hp).2
      (by simpa using hj)
    simp only [msgAt_cons_succ, beforeIdx?, ih]

theorem afterIdx?_at_node :
    ∀ (track : List Msg) (j : ℕ), track.Pairwise (fun a b => a.ts < b.ts) →
      j + 1 < track.length → afterIdx? (msgAt track j).ts track = some (j + 1)
  | [], j, _, hj => absurd hj (by simp)
  | [m], 0, _, hj => absurd hj (by simp)
  | m :: m' :: rest', 0, hp, _ => by
    have hlt : m.ts < m'.ts :=
      (List.pairwise_cons.mp hp).1 m' (List.mem_cons_self m' rest')
    simp only [msgAt_cons_zero, afterIdx?]
    rw [if_neg (lt_irrefl m.ts), if_pos hlt]
    rfl
  | m :: rest, j + 1, hp, hj => by
    have hjr : j + 1 < rest.length := by simpa using hj
    have ih := afterIdx?_at_node rest j (List.pairwise_cons.mp hp).2 hjr
    have hmem : msgAt rest j ∈ rest := msgAt_mem rest j (by omega)
    have hmts : m.ts < (msgAt rest j).ts := (List.pairwise_cons.mp hp).1 _ hmem
    simp only [msgAt_cons_succ, afterIdx?, ih]
    rw [if_neg (not_lt.mpr (le_of_lt hmts))]
    rfl

/-- Calling the interpolator exactly at the timestamp of row `j` (when row
`j + 1` exists within a 2-hour gap) reproduces row `j`'s field values:
the fractional position is 0, the geodesic forward projection moves
distance 0, and every linear interpolation collapses to the `before`
value. -/
theorem interpolate_at_node (g : Geod) (track : List Msg) (j : ℕ)
    (hsort : track.Pairwise fun a b => a.ts < b.ts)
    (hinv : ∀ lon1 lat1 lon2 lat2, ∃ p, g.inv lon1 lat1 lon2 lat2 = some p)
    (hfwd : ∀ lon lat az, ∃ baz, g.fwd lon lat az 0 = some (lon, lat, baz))
    (hj : j + 1 < track.length)
    (hgap : (msgAt track (j + 1)).ts - (msgAt track j).ts ≤ 2 * 3600) :
    interpolate_ g (msgAt track j).ts track =
      some { lat := (msgAt track j).lat, lon := (msgAt track j).lon,
             sog := (msgAt track j).sog, cog := (msgAt track j).cog,
             heading := (msgAt track j).heading, rot := (msgAt track j).rot,
             nav := (msgAt track j).nav, ts := (msgAt track j).ts,
             mmsi := (msgAt track 0).mmsi } := by
  have hb := beforeIdx?_at_node track j hsort (by omega)
  have ha := afterIdx?_at_node track j hsort hj
  have hlt : (msgAt track j).ts < (msgAt track (j + 1)).ts :=
    msgAt_ts_lt track hsort (by omega) hj
  obtain ⟨⟨az, baz, d⟩, hinv'⟩ := hinv (msgAt track j).lon (msgAt track j).lat
    (msgAt track (j + 1)).lon (msgAt track (j + 1)).lat
  obtain ⟨bz, hfwd'⟩ := hfwd (msgAt track j).lon (msgAt track j).lat az
  have habs : ¬ |(msgAt track (j + 1)).ts - (msgAt track j).ts| > 2 * 3600 := by
    rw [abs_of_pos (by linarith)]
    linarith
  have hnav : ¬ ((0 : ℚ) >
      ((msgAt track (j + 1)).ts - (msgAt track j).ts) / 2) := by
    have : (0 : ℚ) < ((msgAt track (j + 1)).ts - (msgAt track j).ts) / 2 := by
      linarith
    linarith
  unfold interpolate_
  simp only [hb, ha]
  rw [if_neg habs]
  simp only [hinv', sub_self, zero_div, mul_zero, zero_add, hfwd']
  rw [if_neg hnav]

/-- C2 (amended): for a strictly time-sorted track, the interpolator
called exactly at `before.timestamp` returns `before`'s latitude,
longitude, speed, course, heading and rate-of-turn (boundary exactness at
the left endpoint, given the 2-hour gap bound on `(before, after)`).
Called exactly at `after.timestamp` it brackets with the *next* interval
`(after, next)`, so it returns `after`'s field values provided `after` has
a successor within 2 hours; if `after` is the last message, the lookup
finds no strictly-later row and returns unavailable (`none`) instead of
`after`'s values.  (The original claim, which promises `after`'s values
unconditionally, fails: see the counterexample.) -/
theorem interpolate_boundary_exact (g : Geod) (track : List Msg) (i : ℕ)
    (hsort : track.Pairwise fun a b => a.ts < b.ts)
    (hinv : ∀ lon1 lat1 lon2 lat2, ∃ p, g.inv lon1 lat1 lon2 lat2 = some p)
    (hfwd : ∀ lon lat az, ∃ baz, g.fwd lon lat az 0 = some (lon, lat, baz))
    (hi : i + 1 < track.length)
    (hgap : (msgAt track (i + 1)).ts - (msgAt track i).ts ≤ 2 * 3600) :
    (interpolate_ g (msgAt track i).ts track =
      some { lat := (msgAt track i).lat, lon := (msgAt track i).lon,
             sog := (msgAt track i).sog, cog := (msgAt track i).cog,
             heading := (msgAt track i).heading, rot := (msgAt track i).rot,
             nav := (msgAt track i).nav, ts := (msgAt track i).ts,
             mmsi := (msgAt track 0).mmsi }) ∧
    (i + 2 < track.length →
      (msgAt track (i + 2)).ts - (msgAt track (i + 1)).ts ≤ 2 * 3600 →
      interpolate_ g (msgAt track (i + 1)).ts track =
        some { lat := (msgAt track (i + 1)).lat, lon := (msgAt track (i + 1)).lon,
               sog := (msgAt track (i + 1)).sog, cog := (msgAt track (i + 1)).cog,
               heading := (msgAt track (i + 1)).heading,
               rot := (msgAt track (i + 1)).rot,
               nav := (msgAt track (i + 1)).nav, ts := (msgAt track (i + 1)).ts,
               mmsi := (msgAt track 0).mmsi }) ∧
    (i + 2 = track.length →
      interpolate_ g (msgAt track (i + 1)).ts track = none) := by
  refine ⟨interpolate_at_node g track i hsort hinv hfwd hi hgap, ?_, ?_⟩
  · intro hi2 hgap2
    exact interpolate_at_node g track (i + 1) hsort hinv hfwd hi2 hgap2
  · intro hlen
    have hnone : afterIdx? (msgAt track (i + 1)).ts track = none := by
      apply afterIdx?_eq_none
      intro x hx
      obtain ⟨k, hk, hkx⟩ := List.mem_iff_getElem.mp hx
      have hxk : x = msgAt track k := by
        unfold msgAt
        rw [List.getD_eq_getElem _ _ hk, hkx]
      subst hxk
      rcases Nat.lt_or_ge k (i + 1) with hlt | hge
      · exact not_lt.mpr (le_of_lt (msgAt_ts_lt track hsort hlt hi))
      · have : k = i + 1 := by omega
        subst this
        exact lt_irrefl _
    have hsome := beforeIdx?_at_node track (i + 1) hsort hi
    unfold interpolate_
    simp only [hsome, hnone]

/-- C2 witness: the amended theorem applied to the concrete three-message
track with 100-second gaps and the flat geodesic backend. -/
theorem interpolate_boundary_exact_witness :
    (interpolate_ gFlat (msgAt smallTrack 0).ts smallTrack =
      some { lat := (msgAt smallTrack 0).lat, lon := (msgAt smallTrack 0).lon,
             sog := (msgAt smallTrack 0).sog, cog := (msgAt smallTrack 0).cog,
             heading := (msgAt smallTrack 0).heading, rot := (msgAt smallTrack 0).rot,
             nav := (msgAt smallTrack 0).nav, ts := (msgAt smallTrack 0).ts,
             mmsi := (msgAt smallTrack 0).mmsi }) ∧
    (0 + 2 < smallTrack.length →
      (msgAt smallTrack (0 + 2)).ts - (msgAt smallTrack (0 + 1)).ts ≤ 2 * 3600 →
      interpolate_ gFlat (msgAt smallTrack (0 + 1)).ts smallTrack =
        some { lat := (msgAt smallTrack (0 + 1)).lat, lon := (msgAt smallTrack (0 + 1)).lon,
               sog := (msgAt smallTrack (0 + 1)).sog, cog := (msgAt smallTrack (0 + 1)).cog,
               heading := (msgAt smallTrack (0 + 1)).heading,
               rot := (msgAt smallTrack (0 + 1)).rot,
               nav := (msgAt smallTrack (0 + 1)).nav, ts := (msgAt smallTrack (0 + 1)).ts,
               mmsi := (msgAt smallTrack 0).mmsi }) ∧
    (0 + 2 = smallTrack.length →
      interpolate_ gFlat (msgAt smallTrack (0 + 1)).ts smallTrack = none) :=
  interpolate_boundary_exact gFlat smallTrack 0 (by decide)
    (fun _ _ _ _ => ⟨(0, 0, 0), rfl⟩) (fun _ _ az => ⟨az, rfl⟩)
    (by decide) (by norm_num [msgAt, smallTrack])

/-- C2 counterexample: in `cexTrack` the pair at indices (1, 2) is
interior with gap 100 s ≤ 2 h, yet calling the interpolator exactly at
`after.timestamp = 200` yields `none` (the bracketing interval is
`(200, 7401)`, whose gap exceeds 2 hours), not `after`'s field values as
the original claim states. -/
theorem interpolate_after_boundary_cex :
    interpolate_ gFlat 200 cexTrack = none := by
  have hb : beforeIdx? 200 cexTrack = some 2 := by
    norm_num [beforeIdx?, cexTrack]
  have ha : afterIdx? 200 cexTrack = some 3 := by
    norm_num [afterIdx?, cexTrack]
  have habs : |(msgAt cexTrack 3).ts - (msgAt cexTrack 2).ts| > 2 * 3600 := by
    norm_num [msgAt, cexTrack]
  unfold interpolate_
  simp only [hb, ha]
  rw [if_pos habs]

/-- C5: any failure inside the interpolator's geometric computation —
modelled as the geodesic backend's inverse or forward computation
signalling failure — makes `interpolate_` return the unavailable sentinel
`none`.  The embedding is a total function into `Option Msg`, which is
exactly the guarantee that the `try/except` wrapper never lets an
exception propagate to the caller. -/
theorem interpolate_geo_failure (g : Geod) (t : ℚ) (track : List Msg)
    (h : (∀ a b c d, g.inv a b c d = none) ∨ (∀ a b c d, g.fwd a b c d = none)) :
    interpolate_ g t track = none := by
  cases hb : beforeIdx? t track with
  | none => simp [interpolate_, hb]
  | some bpos =>
    cases ha : afterIdx? t track with
    | none => simp [interpolate_, hb, ha]
    | some apos =>
      rcases h with hi | hf
      · simp [interpolate_, hb, ha, hi]
      · cases hin : g.inv (msgAt track bpos).lon (msgAt track bpos).lat
            (msgAt track apos).lon (msgAt track apos).lat with
        | none => simp [interpolate_, hb, ha, hin]
        | some p =>
          obtain ⟨az, baz, dd⟩ := p
          simp [interpolate_, hb, ha, hin, hf]

/-- C5 witness: a backend whose inverse computation always fails makes the
interpolator return `none` on a concrete in-range call. -/
theorem interpolate_geo_failure_witness :
    interpolate_ gFail 100 smallTrack = none :=
  interpolate_geo_failure gFail 100 smallTrack (Or.inl fun _ _ _ _ => rfl)

/-! ### Voyage segmentation (C8) -/

theorem npSplitAux_flatten {α : Type} : ∀ (idxs : List ℕ) (v : List α),
    (npSplitAux idxs v).flatten = v
  | [], v => by simp [npSplitAux]
  | i :: rest, v => by
    have ih := npSplitAux_flatten (rest.map (· - i)) (v.drop i)
    simp [npSplitAux, ih]
termination_by idxs _ => idxs.length
decreasing_by simpa using Nat.lt_succ_self rest.length

theorem filter_range_eq_single (n : ℕ) (p : ℕ → Bool) (i : ℕ) :
    i < n → p i = true → (∀ j, j < n → j ≠ i → p j = false) →
    (List.range n).filter p = [i] := by
  induction n with
  | zero => intro h _ _; omega
  | succ n ih =>
    intro hi hp ho
    rw [List.range_succ, List.filter_append]
    by_cases hin : i = n
    · subst hin
      have h1 : (List.range i).filter p = [] := by
        apply List.filter_eq_nil_iff.mpr
        intro a ha
        have ha' : a < i := List.mem_range.mp ha
        simp [ho a (by omega) (by omega)]
      rw [h1]
      simp [hp]
    · have h2 : p n = false := ho n (by omega) fun h => hin h.symm
      rw [ih (by omega) hp fun j hj hji => ho j (by omega) hji]
      simp [h2]

/-- C8: segmentation splits exactly at every consecutive-message gap
strictly exceeding 2 hours: a stream with a single above-threshold gap
(after index `i`) yields exactly two voyages, split at the gap; no message
is lost by splitting (the segments rejoin to the stream); and the
minimum-length/duration filter keeps exactly the candidates with at least
75 messages and duration at least 6 hours. -/
theorem voyage_segmentation (v : List Msg) (i : ℕ)
    (hi : i < v.length - 1)
    (hgap : (msgAt v (i + 1)).ts - (msgAt v i).ts > 2 * 3600)
    (hothers : ∀ j, j < v.length - 1 → j ≠ i →
      ¬ ((msgAt v (j + 1)).ts - (msgAt v j).ts > 2 * 3600)) :
    segmentTrack v = [v.take (i + 1), v.drop (i + 1)] ∧
    (∀ u : List Msg, (segmentTrack u).flatten = u) ∧
    ∀ (vs : List (List Msg)) (w : List Msg), w ∈ vs →
      (w ∈ durationFilter vs ↔
        75 ≤ w.length ∧
          6 * 3600 ≤ (msgAt w (w.length - 1)).ts - (msgAt w 0).ts) := by
  have hgi : gapIdxs v = [i] := by
    apply filter_range_eq_single _ _ _ hi
    · simpa using hgap
    · intro j hj hji
      simpa using hothers j hj hji
  refine ⟨?_, ?_, ?_⟩
  · have hlen : 0 < v.length := by omega
    rw [segmentTrack, if_pos hlen, hgi, if_neg (by simp)]
    simp [npSplitAux]
  · intro u
    rw [segmentTrack]
    by_cases hu : 0 < u.length
    · rw [if_pos hu]
      by_cases hg : gapIdxs u = []
      · rw [if_pos hg]
        simp
      · rw [if_neg hg]
        exact npSplitAux_flatten _ _
    · rw [if_neg hu]
      have hu0 : u = [] := List.length_eq_zero.mp (by omega)
      subst hu0
      rfl
  · intro vs w hw
    unfold durationFilter
    rw [List.mem_filter]
    constructor
    · rintro ⟨_, hcond⟩
      simp only [Bool.not_eq_true', Bool.or_eq_false_iff,
        decide_eq_false_iff_not, not_lt] at hcond
      exact hcond
    · intro hcond
      refine ⟨hw, ?_⟩
      simp only [Bool.not_eq_true', Bool.or_eq_false_iff,
        decide_eq_false_iff_not, not_lt]
      exact hcond

/-- C8 witness: the theorem applied to a concrete three-message stream
whose only above-threshold gap (7201 s) follows index 1. -/
theorem voyage_segmentation_witness :
    segmentTrack gapTrack = [gapTrack.take (1 + 1), gapTrack.drop (1 + 1)] ∧
    (∀ u : List Msg, (segmentTrack u).flatten = u) ∧
    ∀ (vs : List (List Msg)) (w : List Msg), w ∈ vs →
      (w ∈ durationFilter vs ↔
        75 ≤ w.length ∧
          6 * 3600 ≤ (msgAt w (w.length - 1)).ts - (msgAt w 0).ts) := by
  refine voyage_segmentation gapTrack 1 (by norm_num [gapTrack]) ?_ ?_
  · norm_num [msgAt, gapTrack]
  · intro j hj hne
    simp only [gapTrack, List.length_cons, List.length_nil] at hj
    interval_cases j
    · norm_num [msgAt, gapTrack]
    · exact absurd rfl hne

/-! ### Re-splitting into 144-sample blocks (C9) -/

theorem tail_range_mul (q : ℕ) :
    ((List.range (q + 1)).map (· * 144)).tail =
      (List.range q).map fun j => (j + 1) * 144 := by
  rw [List.range_succ_eq_map]
  simp only [List.map_cons, List.tail_cons, List.map_map]
  exact List.map_congr_left fun a _ => by simp [Function.comp]

theorem tail_arange (n : ℕ) (hn : 145 ≤ n) :
    (arange n 144).tail = 144 :: ((arange (n - 144) 144).tail.map (· + 144)) := by
  obtain ⟨q₂, hq'⟩ : ∃ q₂, (n - 144 + 144 - 1) / 144 = q₂ + 1 :=
    ⟨(n - 144 + 144 - 1) / 144 - 1, by omega⟩
  have hq2 : (n + 144 - 1) / 144 = (q₂ + 1) + 1 := by omega
  unfold arange
  rw [hq2, hq', tail_range_mul, tail_range_mul, List.range_succ_eq_map]
  simp only [List.map_cons, List.map_map]
  congr 1
  exact List.map_congr_left fun a _ => by simp [Function.comp]; ring

theorem blockSplit_le (n : ℕ) : ∀ (v : List Msg), v.length = n →
    ∀ b ∈ npSplitAux ((arange n 144).tail) v, b.length ≤ 144 := by
  induction n using Nat.strong_induction_on with
  | _ n ih =>
    intro v hv b hb
    by_cases hn : n ≤ 144
    · have htail : (arange n 144).tail = [] := by
        have hq : (n + 144 - 1) / 144 ≤ 1 := by omega
        unfold arange
        rcases Nat.le_one_iff_eq_zero_or_eq_one.mp hq with h | h <;>
          rw [h] <;> rfl
      rw [htail] at hb
      simp only [npSplitAux, List.mem_singleton] at hb
      subst hb
      omega
    · rw [tail_arange n (by omega)] at hb
      simp only [npSplitAux] at hb
      rcases List.mem_cons.mp hb with rfl | hb'
      · simp
      · have hmap : ((arange (n - 144) 144).tail.map (· + 144)).map (· - 144) =
            (arange (n - 144) 144).tail := by
          rw [List.map_map]
          have : ∀ x ∈ (arange (n - 144) 144).tail,
              ((· - 144) ∘ (· + 144)) x = id x := fun x _ => by
            simp [Function.comp]
          rw [List.map_congr_left this, List.map_id]
        rw [hmap] at hb'
        exact ih (n - 144) (by omega) (v.drop 144) (by simp [hv]) b hb'

/-- C9: re-segmentation produces blocks of exactly 144 samples each
(12 hours at 5-minute intervals): a slice is placed into the output if and
only if it is one of the cut slices and has length exactly 144; in
particular every retained block has length 144 and any trailing slice
shorter than 144 samples is discarded. -/
theorem resplit_block_length (v b : List Msg) :
    b ∈ resplitVoyage v ↔ b ∈ blockSplit v ∧ b.length = 144 := by
  unfold resplitVoyage
  rw [List.mem_filter]
  constructor
  · rintro ⟨hmem, hlen⟩
    have hle := blockSplit_le v.length v rfl b hmem
    have h144 : 144 ≤ b.length := by simpa using hlen
    exact ⟨hmem, by omega⟩
  · rintro ⟨hmem, hlen⟩
    exact ⟨hmem, by simp [hlen]⟩

/-- C9 witness: the characterisation applied to a concrete 150-sample
voyage and its 144-sample head slice. -/
theorem resplit_block_length_witness :
    List.replicate 144 (default : Msg) ∈
        resplitVoyage (List.replicate 150 (default : Msg)) ↔
      List.replicate 144 (default : Msg) ∈
          blockSplit (List.replicate 150 (default : Msg)) ∧
        (List.replicate 144 (default : Msg)).length = 144 :=
  resplit_block_length _ _

/-! ### Per-voyage fault isolation in the anomaly-removal loop (C4) -/

/-- C4: for every collection of voyages and every per-voyage outlier
computation `f` (including any fault it may raise, modelled as
`Except.error`), the anomaly-removal loop is a total function that
processes every voyage: a faulting voyage is discarded and counted, a
non-faulting voyage is kept or dropped by the all-anomalous verdicts, and
the batch loop equals the per-voyage outcome map together with the fault
count — no single voyage can halt the batch, and the stage never
propagates a fault. -/
theorem anomaly_stage_isolation
    (f : List Msg → Except Unit (List Bool × Option (List Bool)))
    (vs : List (List Msg)) :
    anomalyStage f vs = (vs.filterMap (voyageOutcome f), vs.countP (voyageFaults f)) := by
  induction vs with
  | nil => rfl
  | cons v rest ih =>
    cases hf : f v with
    | error e =>
      simp [anomalyStage, voyageOutcome, voyageFaults, hf, ih,
        List.countP_cons, List.filterMap_cons]
    | ok p =>
      obtain ⟨oRep, oCal⟩ := p
      cases oCal with
      | none =>
        by_cases hrep : oRep.all id
        · simp [anomalyStage, voyageOutcome, voyageFaults, hf, hrep, ih,
            List.countP_cons, List.filterMap_cons]
        · simp [anomalyStage, voyageOutcome, voyageFaults, hf, hrep, ih,
            List.countP_cons, List.filterMap_cons]
      | some oc =>
        by_cases hrep : oRep.all id
        · simp [anomalyStage, voyageOutcome, voyageFaults, hf, hrep, ih,
            List.countP_cons, List.filterMap_cons]
        · by_cases hcal : oc.all id
          · simp [anomalyStage, voyageOutcome, voyageFaults, hf, hrep, hcal, ih,
              List.countP_cons, List.filterMap_cons]
          · simp [anomalyStage, voyageOutcome, voyageFaults, hf, hrep, hcal, ih,
              List.countP_cons, List.filterMap_cons]

/-! ### Resampling (C3) -/

theorem pyInt_intCast (n : ℤ) : pyInt ((n : ℤ) : ℚ) = n := by
  unfold pyInt
  simp

theorem interpolate_ts (g : Geod) (t : ℚ) (track : List Msg) (m : Msg)
    (h : interpolate_ g t track = some m) : m.ts = t := by
  unfold interpolate_ at h
  cases hb : beforeIdx? t track with
  | none => simp [hb] at h
  | some bpos =>
    cases ha : afterIdx? t track with
    | none => simp [hb, ha] at h
    | some apos =>
      simp only [hb, ha] at h
      by_cases hg : |(msgAt track apos).ts - (msgAt track bpos).ts| > 2 * 3600
      · rw [if_pos hg] at h
        simp at h
      · rw [if_neg hg] at h
        cases hin : g.inv (msgAt track bpos).lon (msgAt track bpos).lat
            (msgAt track apos).lon (msgAt track apos).lat with
        | none => simp only [hin] at h; simp at h
        | some trip =>
          obtain ⟨az, baz, d⟩ := trip
          simp only [hin] at h
          cases hfw : g.fwd (msgAt track bpos).lon (msgAt track bpos).lat az
              (d * ((t - (msgAt track bpos).ts) /
                ((msgAt track apos).ts - (msgAt track bpos).ts))) with
          | none => simp only [hfw] at h; simp at h
          | some trip2 =>
            obtain ⟨lonI, latI, bz⟩ := trip2
            simp only [hfw, Option.some.injEq] at h
            rw [← h]

theorem sampleLoop_none (g : Geod) (v : List Msg) :
    ∀ (targets : List ℤ), (∃ t ∈ targets, interpolate_ g (t : ℚ) v = none) →
      sampleLoop g v targets = none
  | [], h => by
    rcases h with ⟨t, ht, _⟩
    simp at ht
  | t :: rest, h => by
    rcases h with ⟨u, hu, hnone⟩
    rcases List.mem_cons.mp hu with rfl | hu'
    · simp [sampleLoop, hnone]
    · simp only [sampleLoop]
      cases hi : interpolate_ g (t : ℚ) v with
      | none => rfl
      | some m =>
        rw [sampleLoop_none g v rest ⟨u, hu', hnone⟩]
        rfl

theorem sampleLoop_some (g : Geod) (v : List Msg) :
    ∀ (targets : List ℤ) (st : List Msg), sampleLoop g v targets = some st →
      st.length = targets.length ∧
      ∀ j, j < targets.length → (msgAt st j).ts = ((targets.getD j 0 : ℤ) : ℚ)
  | [], st, h => by
    simp only [sampleLoop, Option.some.injEq] at h
    subst h
    refine ⟨rfl, ?_⟩
    intro j hj
    simp at hj
  | t :: rest, st, h => by
    simp only [sampleLoop] at h
    cases hi : interpolate_ g (t : ℚ) v with
    | none => rw [hi] at h; simp at h
    | some m =>
      rw [hi] at h
      cases hrec : sampleLoop g v rest with
      | none => rw [hrec] at h; simp at h
      | some st' =>
        rw [hrec] at h
        simp only [Option.map_some', Option.some.injEq] at h
        obtain ⟨hlen, hts⟩ := sampleLoop_some g v rest st' hrec
        subst h
        refine ⟨by simp [hlen], ?_⟩
        intro j hj
        cases j with
        | zero =>
          rw [msgAt_cons_zero]
          simpa using interpolate_ts g (t : ℚ) v m hi
        | succ j' =>
          rw [msgAt_cons_succ, List.getD_cons_succ]
          exact hts j' (by simpa using hj)

theorem pyRangeLen_300 (a b : ℤ) : pyRangeLen a b 300 = (b - a + 299).toNat / 300 := by
  unfold pyRangeLen
  norm_num
  rfl

theorem pyRange_getD (a b step : ℤ) (j : ℕ) (hj : j < pyRangeLen a b step) :
    (pyRange a b step).getD j 0 = a + step * (j : ℤ) := by
  unfold pyRange
  have hlen : j <
      ((List.range (pyRangeLen a b step)).map fun j : ℕ => a + step * (j : ℤ)).length := by
    simpa using hj
  rw [List.getD_eq_getElem _ _ hlen]
  simp

/-- C3: resampling is all-or-nothing: an unavailable interpolation at any
target of the walk `range(int(first.ts), int(last.ts), 300)` drops the
whole voyage; and a retained resampled track consists of exactly one
message per target, whose timestamps form the arithmetic progression
`first.ts + 300·j`, covering the voyage span up to (strictly within) one
step of the last original timestamp. -/
theorem resample_allOrNothing (g : Geod) (v : List Msg) (t0 tl : ℤ)
    (h0 : (msgAt v 0).ts = (t0 : ℚ))
    (hl : (msgAt v (v.length - 1)).ts = (tl : ℚ)) :
    ((∃ t ∈ pyRange t0 tl 300, interpolate_ g (t : ℚ) v = none) →
      resampleVoyage g v = none) ∧
    (∀ st, resampleVoyage g v = some st →
      (∀ t ∈ pyRange t0 tl 300, interpolate_ g (t : ℚ) v ≠ none) ∧
      st.length = pyRangeLen t0 tl 300 ∧
      (∀ j, j < st.length → (msgAt st j).ts = ((t0 + 300 * (j : ℤ) : ℤ) : ℚ)) ∧
      (t0 < tl → tl ≤ t0 + 300 * (st.length : ℤ) ∧
        t0 + 300 * ((st.length : ℤ) - 1) < tl)) := by
  have hres : resampleVoyage g v = sampleLoop g v (pyRange t0 tl 300) := by
    unfold resampleVoyage
    rw [h0, hl, pyInt_intCast, pyInt_intCast]
  constructor
  · intro hex
    rw [hres]
    exact sampleLoop_none g v _ hex
  · intro st hst
    rw [hres] at hst
    obtain ⟨hlen, hts⟩ := sampleLoop_some g v _ st hst
    have hlen' : st.length = pyRangeLen t0 tl 300 := by
      rw [hlen]
      simp [pyRange]
    refine ⟨?_, hlen', ?_, ?_⟩
    · intro t ht hnone
      rw [sampleLoop_none g v _ ⟨t, ht, hnone⟩] at hst
      cases hst
    · intro j hj
      have hj' : j < pyRangeLen t0 tl 300 := by omega
      have := hts j (by simp [pyRange, hj'])
      rwa [pyRange_getD t0 tl 300 j hj'] at this
    · intro hlt
      rw [hlen', pyRangeLen_300]
      constructor <;> omega

/-- C3 witness: the theorem applied to the concrete three-message track
spanning timestamps 0..200 with the flat geodesic backend. -/
theorem resample_allOrNothing_witness :
    ((∃ t ∈ pyRange 0 200 300, interpolate_ gFlat (t : ℚ) smallTrack = none) →
      resampleVoyage gFlat smallTrack = none) ∧
    (∀ st, resampleVoyage gFlat smallTrack = some st →
      (∀ t ∈ pyRange 0 200 300, interpolate_ gFlat (t : ℚ) smallTrack ≠ none) ∧
      st.length = pyRangeLen 0 200 300 ∧
      (∀ j, j < st.length → (msgAt st j).ts = ((0 + 300 * (j : ℤ) : ℤ) : ℚ)) ∧
      ((0 : ℤ) < 200 → (200 : ℤ) ≤ 0 + 300 * (st.length : ℤ) ∧
        0 + 300 * ((st.length : ℤ) - 1) < 200)) :=
  resample_allOrNothing gFlat smallTrack 0 200
    (by norm_num [msgAt, smallTrack]) (by norm_num [msgAt, smallTrack])

/-! ### The moored/at-anchor quality filter (C1) -/

theorem countP_replicate_eq {α : Type} (p : α → Bool) (a : α) (n : ℕ) :
    (List.replicate n a).countP p = if p a then n else 0 := by
  induction n with
  | zero => simp
  | succ n ih =>
    rw [List.replicate_succ, List.countP_cons, ih]
    by_cases h : p a <;> simp [h]

theorem foldl_max_sog_const (l : List Msg) : ∀ (a : ℚ), (∀ x ∈ l, x.sog ≤ a) →
    l.foldl (fun acc x => max acc x.sog) a = a := by
  induction l with
  | nil => intro a _; rfl
  | cons x r ih =>
    intro a h
    simp only [List.foldl_cons]
    rw [max_eq_left (h x (List.mem_cons_self x r))]
    exact ih a fun y hy => h y (List.mem_cons_of_mem x hy)

theorem frac_gt_iff (c L : ℕ) (hL : 0 < L) :
    ((c : ℚ) / (L : ℚ) > 0.7 ↔ 7 * L < 10 * c) := by
  have hL' : (0 : ℚ) < (L : ℚ) := by exact_mod_cast hL
  rw [gt_iff_lt, lt_div_iff₀ hL']
  constructor
  · intro h
    have h' : (7 : ℚ) * (L : ℚ) < 10 * (c : ℚ) := by linarith
    exact_mod_cast h'
  · intro h
    have h' : (7 : ℚ) * (L : ℚ) < 10 * (c : ℚ) := by exact_mod_cast h
    linarith

/-- C1 (amended): a nonempty block reaching the quality filter survives it
exactly when the moored/anchor predicate is off and its maximum speed is
at least 1 knot, and the moored/anchor predicate discards it if and only
if the fraction of its messages with status 7 exceeds 0.7 **or** the
fraction with status 8 exceeds 0.7 — two separate per-status fractions
(each strict, so a block at exactly 70.0% of either status is retained),
not the combined 7-or-8 fraction of the original claim. -/
theorem quality_moored_filter (blocks : List (List Msg)) (b : List Msg)
    (hb : b ∈ blocks) (hne : b ≠ []) :
    (b ∈ qualityStage blocks ↔
      mooredDiscard b = false ∧ ¬ maxSog b < 1) ∧
    (mooredDiscard b = true ↔
      7 * b.length < 10 * (b.countP fun m => decide (m.nav = 7)) ∨
      7 * b.length < 10 * (b.countP fun m => decide (m.nav = 8))) := by
  have hL : 0 < b.length := List.length_pos.mpr hne
  constructor
  · unfold qualityStage
    rw [List.mem_filter]
    simp [hb, Bool.and_eq_true, Bool.not_eq_true']
  · unfold mooredDiscard
    rw [Bool.or_eq_true, decide_eq_true_eq, decide_eq_true_eq,
      frac_gt_iff _ _ hL, frac_gt_iff _ _ hL]

/-- C1 witness: the amended characterisation applied to the concrete
half-moored, half-anchored 144-sample block. -/
theorem quality_moored_filter_witness :
    (cexBlock ∈ qualityStage [cexBlock] ↔
      mooredDiscard cexBlock = false ∧ ¬ maxSog cexBlock < 1) ∧
    (mooredDiscard cexBlock = true ↔
      7 * cexBlock.length < 10 * (cexBlock.countP fun m => decide (m.nav = 7)) ∨
      7 * cexBlock.length < 10 * (cexBlock.countP fun m => decide (m.nav = 8))) :=
  quality_moored_filter [cexBlock] cexBlock (List.mem_singleton.mpr rfl)
    (by simp [cexBlock])

/-- C1 counterexample: `cexBlock` has combined moored-or-anchor fraction
1 > 0.7, so the original claim says it is discarded; the code retains it,
because each separate fraction is 1/2 ≤ 0.7 and its maximum speed is
5 knots. -/
theorem quality_moored_cex :
    mooredDiscardClaim cexBlock = true ∧ qualityStage [cexBlock] = [cexBlock] := by
  have hlen : cexBlock.length = 144 := by simp [cexBlock]
  have hc7 : (cexBlock.countP fun m => decide (m.nav = 7)) = 72 := by
    unfold cexBlock
    rw [List.countP_append, countP_replicate_eq, countP_replicate_eq]
    norm_num [msgNav7, msgNav8]
  have hc8 : (cexBlock.countP fun m => decide (m.nav = 8)) = 72 := by
    unfold cexBlock
    rw [List.countP_append, countP_replicate_eq, countP_replicate_eq]
    norm_num [msgNav7, msgNav8]
  have hc78 : (cexBlock.countP fun m =>
      decide (m.nav = 7) || decide (m.nav = 8)) = 144 := by
    unfold cexBlock
    rw [List.countP_append, countP_replicate_eq, countP_replicate_eq]
    norm_num [msgNav7, msgNav8]
  constructor
  · unfold mooredDiscardClaim
    rw [hc78, hlen]
    norm_num
  · have hmo : mooredDiscard cexBlock = false := by
      unfold mooredDiscard
      rw [hc7, hc8, hlen]
      norm_num
    have hform : cexBlock =
        msgNav7 :: (List.replicate 71 msgNav7 ++ List.replicate 72 msgNav8) := by
      rw [cexBlock]
      rfl
    have hmax : maxSog cexBlock = 5 := by
      rw [hform]
      unfold maxSog
      apply foldl_max_sog_const
      intro x hx
      rcases List.mem_append.mp hx with hx7 | hx8
      · rw [List.eq_of_mem_replicate hx7]
      · rw [List.eq_of_mem_replicate hx8]
        norm_num [msgNav7, msgNav8]
    unfold qualityStage
    rw [List.filter_cons]
    rw [hmo, hmax]
    norm_num

end Preprocess
